import Mathlib

/-!
# Verification of the simple-battery scheduling script

A shallow embedding of `src/example_script.py` (SeitaBV/assignment-data-optimization).

The script has two parts:

* `compute_soc_schedule` (the "SoC Projector"): a pure function turning a power
  schedule and a starting state of charge into the implied SoC trajectory,
  via `[soc_start] + list(np.cumsum(power_schedule) + soc_start)`.

* `schedule_simple_battery` (the "Dispatch Optimizer"): builds a linear program
  over decision variables `ems_power[j]` (net power, Reals),
  `device_power_down[j]` (discharge, NonPositiveReals) and
  `device_power_up[j]` (charge, NonNegativeReals) for `j = 0..T-1`,
  with constraint rules `ems_derivative_bounds`, `device_derivative_equalities`
  and `device_bounds`, objective `cost_function`, then calls an external LP
  solver with `load_solutions=False`, loads a solution only when at least one
  was produced, and reads back the objective value and the `ems_power` series.

Real numbers in the script are modelled as `ℚ`; the LP model is embedded as a
feasibility predicate over variable assignments plus the objective function,
and the post-solve extraction logic is embedded as a pure function of the
solver's results (variables keep their creation-time value 0 when no solution
is loaded, mirroring `initialize=0` in the script).
-/

/-- `np.cumsum` with an explicit running accumulator. -/
def cumsumFrom (acc : ℚ) : List ℚ → List ℚ
  | [] => []
  | x :: xs => (acc + x) :: cumsumFrom (acc + x) xs

/-- `np.cumsum`: the list of partial sums `[p₀, p₀+p₁, …]`. -/
def cumsum (p : List ℚ) : List ℚ := cumsumFrom 0 p

/-- `compute_soc_schedule` from the source:
`return [soc_start] + list(np.cumsum(power_schedule) + soc_start)`. -/
def compute_soc_schedule (power_schedule : List ℚ) (soc_start : ℚ) : List ℚ :=
  soc_start :: (cumsum power_schedule).map (fun x => x + soc_start)

theorem cumsumFrom_length (acc : ℚ) (p : List ℚ) :
    (cumsumFrom acc p).length = p.length := by
  induction p generalizing acc with
  | nil => rfl
  | cons x xs ih => simp [cumsumFrom, ih]

theorem cumsumFrom_getElem (p : List ℚ) (acc : ℚ) (i : ℕ) (h : i < p.length) :
    (cumsumFrom acc p)[i]? = some (acc + (p.take (i + 1)).sum) := by
  induction p generalizing acc i with
  | nil => simp at h
  | cons x xs ih =>
    cases i with
    | zero => simp [cumsumFrom]
    | succ i =>
      simp only [cumsumFrom, List.getElem?_cons_succ]
      rw [ih (acc + x) i (by simpa using h)]
      simp [add_assoc]

theorem compute_soc_schedule_length (p : List ℚ) (s : ℚ) :
    (compute_soc_schedule p s).length = p.length + 1 := by
  simp [compute_soc_schedule, cumsum, cumsumFrom_length]

theorem compute_soc_schedule_getElem (p : List ℚ) (s : ℚ) (k : ℕ) (h : k ≤ p.length) :
    (compute_soc_schedule p s)[k]? = some (s + (p.take k).sum) := by
  cases k with
  | zero => simp [compute_soc_schedule]
  | succ k =>
    simp only [compute_soc_schedule, List.getElem?_cons_succ, List.getElem?_map]
    rw [cumsum, cumsumFrom_getElem p 0 k (by omega)]
    simp [add_comm]

theorem compute_soc_schedule_getLast (p : List ℚ) (s : ℚ) :
    (compute_soc_schedule p s).getLast? = some (s + p.sum) := by
  rw [List.getLast?_eq_getElem?, compute_soc_schedule_length]
  simpa using compute_soc_schedule_getElem p s p.length le_rfl

/-- C6: `compute_soc_schedule p s` has length `p.length + 1`, starts with `s`,
its `k`-th element is `s + sum (p[0:k])` for `1 ≤ k ≤ p.length`, and on the
empty schedule it returns `[s]`; it is a total function (no error paths). -/
theorem soc_projector_spec (p : List ℚ) (s : ℚ) :
    (compute_soc_schedule p s).length = p.length + 1 ∧
      (compute_soc_schedule p s)[0]? = some s ∧
      (∀ k, 1 ≤ k → k ≤ p.length →
        (compute_soc_schedule p s)[k]? = some (s + (p.take k).sum)) ∧
      compute_soc_schedule [] s = [s] := by
  refine ⟨compute_soc_schedule_length p s, by simp [compute_soc_schedule], ?_, rfl⟩
  intro k _ hk
  exact compute_soc_schedule_getElem p s k hk

/-- Witness for C6 at the concrete schedule `[1, 2]` with starting SoC `5`. -/
theorem soc_projector_spec_witness :
    (compute_soc_schedule [1, 2] 5).length = 3 ∧
      (compute_soc_schedule [1, 2] 5)[2]? = some 8 := by
  have h := soc_projector_spec [1, 2] 5
  refine ⟨h.1, ?_⟩
  rw [h.2.2.1 2 (by norm_num) (by norm_num)]
  norm_num

/-- The inputs of `schedule_simple_battery`: the price frame (one consumption
price and one production price per step, `T` steps) and the device
parameters, in the order of the Python signature. -/
structure BatteryInputs where
  T : ℕ
  consumption : ℕ → ℚ
  production : ℕ → ℚ
  soc_start : ℚ
  soc_max : ℚ
  soc_min : ℚ
  soc_target : ℚ
  power_capacity : ℚ
  conversion_efficiency : ℚ

/-- One value per decision variable of the model: `model.ems_power`,
`model.device_power_down` and `model.device_power_up`, each indexed by
`model.j = RangeSet(0, T-1)` (only the first `T` values are relevant). -/
structure Assignment where
  ems_power : ℕ → ℚ
  device_power_down : ℕ → ℚ
  device_power_up : ℕ → ℚ

/-- `price_up_select`: `model.up_price` is the consumption price at step `j`. -/
def price_up_select (P : BatteryInputs) (j : ℕ) : ℚ := P.consumption j

/-- `price_down_select`: `model.down_price` is the production price at step `j`. -/
def price_down_select (P : BatteryInputs) (j : ℕ) : ℚ := P.production j

/-- `model.device_max`: a per-step parameter, filled with the scalar `soc_max`. -/
def device_max (P : BatteryInputs) (_j : ℕ) : ℚ := P.soc_max

/-- `model.device_min`: a per-step parameter, filled with the scalar `soc_min`. -/
def device_min (P : BatteryInputs) (_j : ℕ) : ℚ := P.soc_min

/-- The variable domains: `device_power_down` is `NonPositiveReals`,
`device_power_up` is `NonNegativeReals` (`ems_power` is unrestricted `Reals`). -/
def var_domains (a : Assignment) (j : ℕ) : Prop :=
  a.device_power_down j ≤ 0 ∧ 0 ≤ a.device_power_up j

instance (a : Assignment) (j : ℕ) : Decidable (var_domains a j) := by
  unfold var_domains; infer_instance

/-- One summand of the `stock_changes` list built inside `device_bounds`. -/
def stock_change (P : BatteryInputs) (a : Assignment) (k : ℕ) : ℚ :=
  a.device_power_down k / P.conversion_efficiency
    + a.device_power_up k * P.conversion_efficiency

/-- The `stock_changes` list of `device_bounds`: one term per `k ∈ range(0, j+1)`. -/
def stock_changes (P : BatteryInputs) (a : Assignment) (j : ℕ) : List ℚ :=
  (List.range (j + 1)).map (stock_change P a)

/-- The `ems_derivative_bounds` rule:
`(-power_capacity, m.ems_power[j], power_capacity)`. -/
def ems_derivative_bounds (P : BatteryInputs) (a : Assignment) (j : ℕ) : Prop :=
  -P.power_capacity ≤ a.ems_power j ∧ a.ems_power j ≤ P.power_capacity

instance (P : BatteryInputs) (a : Assignment) (j : ℕ) :
    Decidable (ems_derivative_bounds P a j) := by
  unfold ems_derivative_bounds; infer_instance

/-- The `device_bounds` rule: at the final step `j = len(prices) - 1` the running
stock `soc_start + sum(stock_changes)` is pinned to `soc_target` (equal lower and
upper bound); at every other step it must lie in `[device_min[j], device_max[j]]`. -/
def device_bounds (P : BatteryInputs) (a : Assignment) (j : ℕ) : Prop :=
  if j = P.T - 1 then
    P.soc_target ≤ P.soc_start + (stock_changes P a j).sum ∧
      P.soc_start + (stock_changes P a j).sum ≤ P.soc_target
  else
    device_min P j ≤ P.soc_start + (stock_changes P a j).sum ∧
      P.soc_start + (stock_changes P a j).sum ≤ device_max P j

instance (P : BatteryInputs) (a : Assignment) (j : ℕ) :
    Decidable (device_bounds P a j) := by
  unfold device_bounds; infer_instance

/-- The `device_derivative_equalities` rule:
`(0, m.device_power_up[j] + m.device_power_down[j] - m.ems_power[j], 0)`. -/
def device_derivative_equalities (_P : BatteryInputs) (a : Assignment) (j : ℕ) : Prop :=
  0 ≤ a.device_power_up j + a.device_power_down j - a.ems_power j ∧
    a.device_power_up j + a.device_power_down j - a.ems_power j ≤ 0

instance (P : BatteryInputs) (a : Assignment) (j : ℕ) :
    Decidable (device_derivative_equalities P a j) := by
  unfold device_derivative_equalities; infer_instance

/-- A feasible point of the model built by `schedule_simple_battery`: the
variable domains and the three indexed constraint blocks
(`device_power_up_bounds`, `device_power_equalities`, `device_energy_bounds`)
hold at every step `j ∈ model.j`. -/
def Feasible (P : BatteryInputs) (a : Assignment) : Prop :=
  ∀ j < P.T,
    var_domains a j ∧
      ems_derivative_bounds P a j ∧
        device_derivative_equalities P a j ∧
          device_bounds P a j

instance (P : BatteryInputs) (a : Assignment) : Decidable (Feasible P a) := by
  unfold Feasible; infer_instance

/-- The `cost_function` objective, as the source's accumulation loop:
`costs += m.device_power_down[j] * m.down_price[j]`;
`costs += m.device_power_up[j] * m.up_price[j]` over `j ∈ model.j`. -/
def cost_function (P : BatteryInputs) (a : Assignment) : ℚ :=
  (List.range P.T).foldl
    (fun costs j =>
      costs + a.device_power_down j * price_down_select P j
        + a.device_power_up j * price_up_select P j)
    0

/-- The extraction `[model.ems_power[j].value for j in model.j]`. -/
def planned_device_power (P : BatteryInputs) (a : Assignment) : List ℚ :=
  (List.range P.T).map a.ems_power

/-- All variables are created with value 0 (`initial` value 0 in the script). -/
def zero_assignment : Assignment :=
  ⟨fun _ => 0, fun _ => 0, fun _ => 0⟩

/-- What the solver call hands back: a termination condition and the list of
solution candidates (`results.solution`), each one an assignment of values to
the model's variables. -/
structure SolverResults where
  termination_condition : String
  solutions : List Assignment

/-- The variable values after the conditional
`if len(results.solution) > 0: model.solutions.load_from(results)`: the first
candidate when one exists, else the creation-time values (0). -/
def loaded_assignment (results : SolverResults) : Assignment :=
  match results.solutions with
  | [] => zero_assignment
  | s :: _ => s

/-- The tail of `schedule_simple_battery` after the solve call: print the
termination condition, conditionally load a solution, then return
`(value(model.costs), [model.ems_power[j].value for j in model.j])`.
The printed lines are returned explicitly. -/
def schedule_post_solve (P : BatteryInputs) (results : SolverResults) :
    List String × ℚ × List ℚ :=
  ([results.termination_condition],
    cost_function P (loaded_assignment results),
    planned_device_power P (loaded_assignment results))

theorem range_map_sum (n : ℕ) (f : ℕ → ℚ) :
    ((List.range n).map f).sum = ∑ j ∈ Finset.range n, f j := by
  induction n with
  | zero => simp
  | succ n ih =>
    rw [List.range_succ, List.map_append, List.sum_append, Finset.sum_range_succ, ih]
    simp

/-- The accumulation loop of `cost_function`, written as a closed sum. -/
theorem cost_function_sum (P : BatteryInputs) (a : Assignment) :
    cost_function P a = ∑ j ∈ Finset.range P.T,
      (a.device_power_down j * P.production j + a.device_power_up j * P.consumption j) := by
  rw [cost_function, ← range_map_sum]
  induction (List.range P.T) using List.reverseRecOn with
  | nil => rfl
  | append_singleton l x ih =>
    rw [List.foldl_append, List.map_append, List.sum_append, ih]
    simp [price_up_select, price_down_select]
    ring

/-- The cumulative stock expression in `device_bounds`, as a closed sum. -/
theorem stock_changes_sum (P : BatteryInputs) (a : Assignment) (j : ℕ) :
    (stock_changes P a j).sum = ∑ k ∈ Finset.range (j + 1),
      (a.device_power_down k / P.conversion_efficiency
        + a.device_power_up k * P.conversion_efficiency) := by
  rw [stock_changes, range_map_sum]
  rfl

/-- C4: the objective minimized by the model is
`Σ_j (power_discharge[j] · production_price[j] + power_charge[j] · consumption_price[j])`:
the sell (production) price weights the discharge variable and the buy
(consumption) price weights the charge variable. -/
theorem objective_is_price_weighted_sum (P : BatteryInputs) (a : Assignment) :
    cost_function P a = ∑ j ∈ Finset.range P.T,
      (a.device_power_down j * price_down_select P j
        + a.device_power_up j * price_up_select P j) :=
  cost_function_sum P a

/-- C1: in every feasible point of the model, for every non-final step `j`
(`0 ≤ j ≤ T-2`) the running SoC
`soc_start + Σ_{k=0}^{j} (power_discharge[k]/η + power_charge[k]·η)`
lies within `[soc_min, soc_max]`. -/
theorem nonfinal_running_soc_bounds (P : BatteryInputs) (a : Assignment)
    (hfeas : Feasible P a) (j : ℕ) (hj : j < P.T - 1) :
    P.soc_min ≤ P.soc_start + ∑ k ∈ Finset.range (j + 1),
        (a.device_power_down k / P.conversion_efficiency
          + a.device_power_up k * P.conversion_efficiency) ∧
      P.soc_start + ∑ k ∈ Finset.range (j + 1),
        (a.device_power_down k / P.conversion_efficiency
          + a.device_power_up k * P.conversion_efficiency) ≤ P.soc_max := by
  have h := (hfeas j (by omega)).2.2.2
  rw [device_bounds, if_neg (by omega)] at h
  rw [← stock_changes_sum]
  exact ⟨h.1, h.2⟩

/-- C2: in every feasible point, whatever the conversion efficiency, the
cumulative SoC expression at the final step equals `soc_target` exactly (the
`device_bounds` rule pins it with equal lower and upper bound); consequently,
when `conversion_efficiency = 1`, `compute_soc_schedule` applied to the
extracted net-power schedule ends at exactly `soc_target`. -/
theorem final_soc_equals_target (P : BatteryInputs) (a : Assignment)
    (hfeas : Feasible P a) (hT : 1 ≤ P.T) :
    P.soc_start + ∑ k ∈ Finset.range P.T,
        (a.device_power_down k / P.conversion_efficiency
          + a.device_power_up k * P.conversion_efficiency) = P.soc_target ∧
      (P.conversion_efficiency = 1 →
        (compute_soc_schedule (planned_device_power P a) P.soc_start).getLast?
          = some P.soc_target) := by
  have hlast := (hfeas (P.T - 1) (by omega)).2.2.2
  rw [device_bounds, if_pos rfl] at hlast
  have heq : P.soc_start + (stock_changes P a (P.T - 1)).sum = P.soc_target :=
    le_antisymm hlast.2 hlast.1
  have hrange : P.T - 1 + 1 = P.T := by omega
  rw [stock_changes_sum, hrange] at heq
  refine ⟨heq, fun heff => ?_⟩
  rw [compute_soc_schedule_getLast, planned_device_power, range_map_sum]
  have hsum : ∑ k ∈ Finset.range P.T, a.ems_power k
      = ∑ k ∈ Finset.range P.T,
          (a.device_power_down k / P.conversion_efficiency
            + a.device_power_up k * P.conversion_efficiency) := by
    refine Finset.sum_congr rfl fun k hk => ?_
    have hke := (hfeas k (Finset.mem_range.mp hk)).2.2.1
    rw [device_derivative_equalities] at hke
    have hk2 : a.ems_power k = a.device_power_up k + a.device_power_down k := by
      linarith [hke.1, hke.2]
    rw [hk2, heff]
    ring
  rw [hsum, heq]

/-- C5: in every feasible point the net-power variable satisfies
`ems_power[j] = device_power_up[j] + device_power_down[j]` at every step, and
the extracted power schedule is exactly the list of `ems_power[j]` values for
`j = 0..T-1`, of length `T`. -/
theorem net_power_equality_and_extraction (P : BatteryInputs) (a : Assignment)
    (hfeas : Feasible P a) :
    (∀ j < P.T, a.ems_power j = a.device_power_up j + a.device_power_down j) ∧
      (planned_device_power P a).length = P.T ∧
      ∀ j < P.T, (planned_device_power P a)[j]? = some (a.ems_power j) := by
  refine ⟨?_, by simp [planned_device_power], ?_⟩
  · intro j hj
    have h := (hfeas j hj).2.2.1
    rw [device_derivative_equalities] at h
    linarith [h.1, h.2]
  · intro j hj
    simp [planned_device_power, List.getElem?_range, hj]

/-- A small concrete scenario used by witnesses: two steps, zero prices,
`soc_start = soc_target = 5`, SoC bounds `[0, 10]`, capacity 1, efficiency 1. -/
def P1 : BatteryInputs :=
  ⟨2, fun _ => 0, fun _ => 0, 5, 10, 0, 5, 1, 1⟩

theorem P1_zero_feasible : Feasible P1 zero_assignment := by
  intro j hj
  have hT : P1.T = 2 := rfl
  rw [hT] at hj
  interval_cases j <;>
    refine ⟨⟨le_refl 0, le_refl 0⟩, ?_, ?_, ?_⟩ <;>
      norm_num [P1, zero_assignment, ems_derivative_bounds, device_derivative_equalities,
        device_bounds, stock_changes, stock_change, device_min, device_max, List.range_succ]

/-- Witness for C1: the all-zero point is feasible for `P1` and the theorem
instantiates at step `j = 0`. -/
theorem nonfinal_running_soc_bounds_witness :
    P1.soc_min ≤ P1.soc_start + ∑ k ∈ Finset.range 1,
        (zero_assignment.device_power_down k / P1.conversion_efficiency
          + zero_assignment.device_power_up k * P1.conversion_efficiency) ∧
      P1.soc_start + ∑ k ∈ Finset.range 1,
        (zero_assignment.device_power_down k / P1.conversion_efficiency
          + zero_assignment.device_power_up k * P1.conversion_efficiency) ≤ P1.soc_max :=
  nonfinal_running_soc_bounds P1 zero_assignment P1_zero_feasible 0 (by decide)

/-- Witness for C2 at the concrete scenario `P1` (whose efficiency is 1, so
both the hard equality and the projector consequence come out concrete). -/
theorem final_soc_equals_target_witness :
    P1.soc_start + ∑ k ∈ Finset.range P1.T,
        (zero_assignment.device_power_down k / P1.conversion_efficiency
          + zero_assignment.device_power_up k * P1.conversion_efficiency) = P1.soc_target ∧
      (compute_soc_schedule (planned_device_power P1 zero_assignment) P1.soc_start).getLast?
        = some P1.soc_target :=
  ⟨(final_soc_equals_target P1 zero_assignment P1_zero_feasible (by decide)).1,
    (final_soc_equals_target P1 zero_assignment P1_zero_feasible (by decide)).2 rfl⟩

/-- Witness for C5 at the concrete scenario `P1`, read off at step `j = 1`. -/
theorem net_power_equality_and_extraction_witness :
    (planned_device_power P1 zero_assignment).length = P1.T ∧
      (planned_device_power P1 zero_assignment)[1]? = some (zero_assignment.ems_power 1) ∧
      zero_assignment.ems_power 1
        = zero_assignment.device_power_up 1 + zero_assignment.device_power_down 1 :=
  ⟨(net_power_equality_and_extraction P1 zero_assignment P1_zero_feasible).2.1,
    (net_power_equality_and_extraction P1 zero_assignment P1_zero_feasible).2.2 1 (by decide),
    (net_power_equality_and_extraction P1 zero_assignment P1_zero_feasible).1 1 (by decide)⟩

/-- A one-step scenario with `power_capacity = 1`: prices 0, `soc_start =
soc_target = 0`, SoC bounds `[-1, 1]`, efficiency 1. -/
def P3 : BatteryInputs :=
  ⟨1, fun _ => 0, fun _ => 0, 0, 1, -1, 0, 1, 1⟩

/-- A point for `P3` with charge 2 and discharge -2 (net power 0). -/
def a3 : Assignment :=
  ⟨fun _ => 0, fun _ => -2, fun _ => 2⟩

/-- C3: the model does NOT bound the charge and discharge variables by
`power_capacity`; `ems_derivative_bounds` only bounds the net `ems_power`.
With `power_capacity = 1`, the point with `device_power_up[0] = 2` and
`device_power_down[0] = -2` satisfies every constraint of the model. -/
theorem charge_exceeds_capacity_feasible :
    Feasible P3 a3 ∧ a3.device_power_up 0 = 2 ∧ P3.power_capacity = 1 := by
  refine ⟨?_, rfl, rfl⟩
  intro j hj
  have hT : P3.T = 1 := rfl
  rw [hT] at hj
  interval_cases j
  refine ⟨⟨by norm_num [a3], by norm_num [a3]⟩, ?_, ?_, ?_⟩ <;>
    norm_num [P3, a3, ems_derivative_bounds, device_derivative_equalities,
      device_bounds, stock_changes, stock_change, device_min, device_max, List.range_succ]

/-- A one-step scenario with `power_capacity = 0`, `soc_start = soc_target`,
consumption price 0 and production price 1, efficiency 1. -/
def P7 : BatteryInputs :=
  ⟨1, fun _ => 0, fun _ => 1, 0, 0, 0, 0, 0, 1⟩

/-- A point for `P7` with charge 1 and discharge -1 (net power 0). -/
def a7 : Assignment :=
  ⟨fun _ => 0, fun _ => -1, fun _ => 1⟩

theorem P7_zero_feasible : Feasible P7 zero_assignment := by
  intro j hj
  have hT : P7.T = 1 := rfl
  rw [hT] at hj
  interval_cases j
  refine ⟨⟨le_refl 0, le_refl 0⟩, ?_, ?_, ?_⟩ <;>
    norm_num [P7, zero_assignment, ems_derivative_bounds, device_derivative_equalities,
      device_bounds, stock_changes, stock_change, device_min, device_max, List.range_succ]

/-- C7: with `conversion_efficiency = 1` and `power_capacity = 0` and
`soc_start = soc_target`, the all-zero point is feasible with cost 0, but the
optimal cost is NOT 0: because charge and discharge are not individually
capped, the point with charge 1 and discharge -1 is also feasible and has
cost -1 when the production price exceeds the consumption price. -/
theorem zero_capacity_negative_cost :
    Feasible P7 zero_assignment ∧ cost_function P7 zero_assignment = 0 ∧
      Feasible P7 a7 ∧ cost_function P7 a7 = -1 := by
  refine ⟨P7_zero_feasible, ?_, ?_, ?_⟩
  · norm_num [cost_function, List.range_succ, price_up_select, price_down_select,
      P7, zero_assignment]
  · intro j hj
    have hT : P7.T = 1 := rfl
    rw [hT] at hj
    interval_cases j
    refine ⟨⟨by norm_num [a7], by norm_num [a7]⟩, ?_, ?_, ?_⟩ <;>
      norm_num [P7, a7, ems_derivative_bounds, device_derivative_equalities,
        device_bounds, stock_changes, stock_change, device_min, device_max, List.range_succ]
  · norm_num [cost_function, List.range_succ, price_up_select, price_down_select, P7, a7]

/-- The price change of the monotonicity property: every production (sell)
price lowered by `d`, consumption (buy) prices unchanged, everything else
unchanged. -/
def decrease_production (P : BatteryInputs) (d : ℚ) : BatteryInputs :=
  ⟨P.T, P.consumption, fun j => P.production j - d, P.soc_start, P.soc_max,
    P.soc_min, P.soc_target, P.power_capacity, P.conversion_efficiency⟩

/-- `c` is the optimal objective value of the model built from `P`: attained
by some feasible point, and a lower bound on the objective over all of them. -/
def IsOptimalCost (P : BatteryInputs) (c : ℚ) : Prop :=
  (∃ a, Feasible P a ∧ cost_function P a = c) ∧
    ∀ a, Feasible P a → c ≤ cost_function P a

/-- The constraints do not read the prices, so feasibility is invariant under
the price change. -/
theorem feasible_decrease_production (P : BatteryInputs) (d : ℚ) (a : Assignment) :
    Feasible (decrease_production P d) a ↔ Feasible P a :=
  Iff.rfl

/-- Effect of the price change on the objective: each feasible point's cost
moves by `-d` times the total discharge. -/
theorem cost_function_decrease_production (P : BatteryInputs) (d : ℚ) (a : Assignment) :
    cost_function (decrease_production P d) a
      = cost_function P a - d * ∑ j ∈ Finset.range P.T, a.device_power_down j := by
  have h1 : cost_function (decrease_production P d) a
      = ∑ j ∈ Finset.range P.T,
          (a.device_power_down j * (P.production j - d)
            + a.device_power_up j * P.consumption j) :=
    cost_function_sum (decrease_production P d) a
  rw [h1, cost_function_sum, Finset.mul_sum, ← Finset.sum_sub_distrib]
  exact Finset.sum_congr rfl fun j _ => by ring

/-- C8: lowering all sell (production) prices uniformly by `d > 0` while
keeping buy (consumption) prices fixed cannot decrease the optimal total
cost of the model. -/
theorem sell_price_decrease_cost_monotone (P : BatteryInputs) (d c c' : ℚ)
    (hd : 0 < d) (h : IsOptimalCost P c)
    (h' : IsOptimalCost (decrease_production P d) c') :
    c ≤ c' := by
  obtain ⟨⟨a, ha, hc⟩, _⟩ := h'
  have haP : Feasible P a := (feasible_decrease_production P d a).mp ha
  have hsum : ∑ j ∈ Finset.range P.T, a.device_power_down j ≤ 0 :=
    Finset.sum_nonpos fun j hj => ((haP j (Finset.mem_range.mp hj)).1).1
  have hle : c ≤ cost_function P a := h.2 a haP
  have heq := cost_function_decrease_production P d a
  have hmul : d * ∑ j ∈ Finset.range P.T, a.device_power_down j ≤ 0 :=
    mul_nonpos_iff.mpr (Or.inl ⟨hd.le, hsum⟩)
  linarith [hc, hle, heq, hmul]

/-- A one-step scenario for the C8 witness: `power_capacity = 0`,
`soc_start = soc_target = 0`, consumption price 1, production price 0. -/
def P8 : BatteryInputs :=
  ⟨1, fun _ => 1, fun _ => 0, 0, 0, 0, 0, 0, 1⟩

theorem P8_zero_feasible : Feasible P8 zero_assignment := by
  intro j hj
  have hT : P8.T = 1 := rfl
  rw [hT] at hj
  interval_cases j
  refine ⟨⟨le_refl 0, le_refl 0⟩, ?_, ?_, ?_⟩ <;>
    norm_num [P8, zero_assignment, ems_derivative_bounds, device_derivative_equalities,
      device_bounds, stock_changes, stock_change, device_min, device_max, List.range_succ]

theorem P8_optimal : IsOptimalCost P8 0 := by
  constructor
  · refine ⟨zero_assignment, P8_zero_feasible, ?_⟩
    norm_num [cost_function, List.range_succ, price_up_select, price_down_select,
      P8, zero_assignment]
  · intro a ha
    have h0 := ha 0 (by decide)
    have hup : 0 ≤ a.device_power_up 0 := h0.1.2
    have hT : P8.T = 1 := rfl
    rw [cost_function_sum, hT, Finset.sum_range_one]
    have hp : P8.production 0 = 0 := rfl
    have hc : P8.consumption 0 = 1 := rfl
    rw [hp, hc]
    linarith

theorem P8_decreased_optimal : IsOptimalCost (decrease_production P8 1) 0 := by
  constructor
  · refine ⟨zero_assignment, P8_zero_feasible, ?_⟩
    norm_num [cost_function, List.range_succ, price_up_select, price_down_select,
      decrease_production, P8, zero_assignment]
  · intro a ha
    have h0 := ha 0 (by decide)
    have hup : 0 ≤ a.device_power_up 0 := h0.1.2
    have hdown : a.device_power_down 0 ≤ 0 := h0.1.1
    have hT : (decrease_production P8 1).T = 1 := rfl
    rw [cost_function_sum, hT, Finset.sum_range_one]
    have hp : (decrease_production P8 1).production 0 = -1 := by
      norm_num [decrease_production, P8]
    have hc : (decrease_production P8 1).consumption 0 = 1 := rfl
    rw [hp, hc]
    linarith

/-- Witness for C8 at the concrete scenario `P8` with `d = 1`: both optimal
costs are 0 and the inequality holds. -/
theorem sell_price_decrease_cost_monotone_witness :
    (0 : ℚ) < 1 ∧ IsOptimalCost P8 0 ∧ IsOptimalCost (decrease_production P8 1) 0 ∧
      (0 : ℚ) ≤ 0 :=
  ⟨by norm_num, P8_optimal, P8_decreased_optimal,
    sell_price_decrease_cost_monotone P8 1 0 0 (by norm_num) P8_optimal P8_decreased_optimal⟩

/-- At the creation-time values (all 0), the objective evaluates to 0. -/
theorem cost_function_zero_assignment (P : BatteryInputs) :
    cost_function P zero_assignment = 0 := by
  rw [cost_function_sum]
  simp [zero_assignment]

/-- At the creation-time values (all 0), the extracted power schedule is the
all-zero list of length `T`. -/
theorem planned_device_power_zero_assignment (P : BatteryInputs) :
    planned_device_power P zero_assignment = List.replicate P.T 0 := by
  rw [planned_device_power]
  induction P.T with
  | zero => rfl
  | succ n ih =>
    rw [List.range_succ, List.map_append, ih, List.replicate_succ']
    simp [zero_assignment]

/-- C9: when the solver hands back zero solution candidates, the post-solve
code prints the termination condition, skips `load_from`, raises no error, and
still extracts and returns the objective value and power values (read from the
unloaded variables). -/
theorem no_solution_still_returns (P : BatteryInputs) (r : SolverResults)
    (h : r.solutions = []) :
    schedule_post_solve P r
      = ([r.termination_condition],
          cost_function P zero_assignment, planned_device_power P zero_assignment) := by
  simp [schedule_post_solve, loaded_assignment, h]

/-- Witness for C9 at the scenario `P1` and an infeasible solver outcome. -/
theorem no_solution_still_returns_witness :
    schedule_post_solve P1 ⟨"infeasible", []⟩
      = (["infeasible"],
          cost_function P1 zero_assignment, planned_device_power P1 zero_assignment) :=
  no_solution_still_returns P1 ⟨"infeasible", []⟩ rfl

/-- C10: when the solver hands back zero solution candidates, the returned
total cost is 0 and the returned power schedule is the all-zero list of
length `T`, because every variable keeps its creation-time value 0 — at the
public interface a failed solve looks exactly like an optimal all-zero
schedule. -/
theorem no_solution_returns_zero_schedule (P : BatteryInputs) (r : SolverResults)
    (h : r.solutions = []) :
    (schedule_post_solve P r).2 = (0, List.replicate P.T 0) := by
  simp [schedule_post_solve, loaded_assignment, h, cost_function_zero_assignment,
    planned_device_power_zero_assignment]

/-- Witness for C10 at the scenario `P1` (two steps) and an empty solution list. -/
theorem no_solution_returns_zero_schedule_witness :
    (schedule_post_solve P1 ⟨"optimal", []⟩).2 = (0, List.replicate 2 0) :=
  no_solution_returns_zero_schedule P1 ⟨"optimal", []⟩ rfl
